import Mathlib

/-!
Verification of the layer core of the TensorLayer repository
(`tensorlayer/layers/core.py`): the `Layer` base class, the computation-graph
node tracker `LayerNode`, and the composite layers `ModelLayer` and
`LayerList`.

The Python classes are modelled by explicit state passing:

* a tensor object is a `Tensor` record whose `info` field models the mutable
  `_info` attribute (`none` when the attribute was never set);
* a layer's mutable attributes (`_built`, `_nodes`, `_nodes_fixed`,
  `_weights`, `is_train`, and the `LayerList`-only `_input_tensors`) form a
  `LayerState` record;
* the abstract methods `build` and `forward` of a concrete subclass are
  parameters collected in `LayerImpl`: per the source contract, `build`
  defines the trainable weights from the input shape, and `forward` computes
  outputs reading the layer's state;
* a `LayerNode` object is identified by the pair (owning layer id,
  node_index), which is what a tensor's `_info` back-reference stores;
* code that can raise on missing attributes (a tensor without `_info`)
  returns an `Option`; code that only raises returns an `Except`.
-/

/-- Shape of one tensor, the result of `t.get_shape().as_list()`. -/
abbrev Dims := List Nat

/-- Reference to a `LayerNode` object: (identity of the owning layer,
`node_index` within that layer's `_nodes` list). -/
abbrev NodeRef := Nat × Nat

/-- A tensor object of the host runtime: a payload value, a static shape, and
the mutable back-reference attribute `_info` (`none` when never set). -/
structure Tensor (V : Type) where
  val : V
  shape : Dims
  info : Option (NodeRef × Nat)

/-- Inputs and outputs as passed around in the Python code: either one bare
tensor or a list of tensors (`isinstance(x, list)` dispatch). -/
inductive Tensors (V : Type) where
  | single (t : Tensor V)
  | list (ts : List (Tensor V))

/-- List-wrapping `x if isinstance(x, list) else [x]`. -/
def Tensors.toList {V : Type} : Tensors V → List (Tensor V)
  | .single t => [t]
  | .list ts => ts

/-- Result of `Layer._compute_shape`: one shape, or a list of shapes when the
input is a list of tensors. -/
inductive ShapeMem where
  | ofSingle (s : Dims)
  | ofList (ss : List Dims)

/-- Erase the mutable `_info` attribute of a tensor, keeping the payload. -/
def Tensor.eraseInfo {V : Type} (t : Tensor V) : Tensor V :=
  { t with info := none }

/-- Erase the `_info` attributes of an input/output bundle: what remains is
exactly the tensor data the host runtime computed. -/
def Tensors.eraseInfo {V : Type} : Tensors V → Tensors V
  | .single t => .single t.eraseInfo
  | .list ts => .list (ts.map Tensor.eraseInfo)

/-- A `LayerNode` object (`LayerNode.__init__`): owning layer (by id),
`node_index`, predecessor node references, input/output tensor lists, and the
derived name `layer.name + "_node_{index}"`. -/
structure LayerNode (V : Type) where
  layerId : Nat
  node_index : Nat
  in_nodes : List NodeRef
  out_nodes : List NodeRef
  in_tensors : Option (List (Tensor V))
  out_tensors : Option (List (Tensor V))
  name : String

/-- The mutable attributes of a `Layer` object set by `Layer.__init__`
(plus `_input_tensors`, which `__call__` sets only on a `LayerList`). -/
structure LayerState (V W : Type) where
  name : String
  built : Bool
  nodes : List (LayerNode V)
  nodes_fixed : Bool
  weights : Option (List W)
  is_train : Bool
  input_tensors : Option (Tensors V) := none

/-- What a concrete `Layer` subclass contributes: whether its class name is in
`tl.layers.inputs.__all__`, whether it is a `LayerList` (the two `isinstance`
and class-name dispatches in `__call__` / `_add_node`), and the abstract
methods: `build` defines the trainable weights from the input shape, and
`forward` computes outputs reading the layer object. -/
structure LayerImpl (V W : Type) where
  isInputClass : Bool
  isLayerList : Bool
  build : ShapeMem → Option (List W) → Option (List W)
  forward : LayerState V W → Tensors V → Tensors V

/-- `Layer._compute_shape`: per-tensor `get_shape().as_list()`, mapped over the
list when the input is a list. -/
def Layer.computeShape {V : Type} : Tensors V → ShapeMem
  | .list ts => .ofList (ts.map Tensor.shape)
  | .single t => .ofSingle t.shape

/-- The loop `for idx, tensor in enumerate(outputs_list): tensor._info =
(new_node, idx)`, starting at index `k`. -/
def stampList {V : Type} (r : NodeRef) (k : Nat) : List (Tensor V) → List (Tensor V)
  | [] => []
  | t :: ts => { t with info := some (r, k) } :: stampList r (k + 1) ts

/-- Stamping the `_info` back-references onto an output bundle: the
list-wrapped outputs are enumerated from index 0. -/
def stampInfo {V : Type} (r : NodeRef) : Tensors V → Tensors V
  | .single t => .single { t with info := some (r, 0) }
  | .list ts => .list (stampList r 0 ts)

/-- The list comprehension `[tensor._info[0] for tensor in inputs_list]`:
fails (AttributeError) when some input tensor has no `_info`. -/
def collectInfoRefs {V : Type} : List (Tensor V) → Option (List NodeRef)
  | [] => some []
  | t :: ts =>
    match t.info with
    | none => none
    | some p =>
      match collectInfoRefs ts with
      | none => none
      | some rs => some (p.1 :: rs)

/-- `Layer._add_node(input_tensors, output_tensors)`: list-wrap both sides,
derive `in_nodes` (empty for a designated input-producing class), create the
new node at index `len(self._nodes)`, append it, and stamp every output
tensor's `_info` with `(new_node, idx)`.  The node's `out_tensors` list holds
the very objects that get stamped, so it reflects the stamped state.  Returns
the updated layer state and the (now stamped) outputs. -/
def Layer.addNode {V W : Type} (isInput : Bool) (lid : Nat) (s : LayerState V W)
    (input_tensors output_tensors : Tensors V) :
    Option (LayerState V W × Tensors V) :=
  let inputs_list := input_tensors.toList
  match (if isInput then some [] else collectInfoRefs inputs_list) with
  | none => none
  | some in_nodes =>
    let node_index := s.nodes.length
    let stamped := stampInfo (lid, node_index) output_tensors
    let new_node : LayerNode V :=
      { layerId := lid, node_index := node_index, in_nodes := in_nodes,
        out_nodes := [], in_tensors := some inputs_list,
        out_tensors := some stamped.toList,
        name := s.name ++ "_node_" ++ Nat.repr node_index }
    some ({ s with nodes := s.nodes ++ [new_node] }, stamped)

/-- The lazy-build step of `Layer.__call__`: when `_built` is false, store the
inputs on a `LayerList`, invoke `build` on the computed shape, and set
`_built` to true; otherwise leave the state alone. -/
def Layer.buildPhase {V W : Type} (impl : LayerImpl V W) (s : LayerState V W)
    (input_tensors : Tensors V) : LayerState V W :=
  if s.built then s
  else
    let sA := if impl.isLayerList then { s with input_tensors := some input_tensors } else s
    let inputs_shape := Layer.computeShape input_tensors
    { sA with weights := impl.build inputs_shape sA.weights, built := true }

/-- `Layer.__call__(inputs)`: (1) build if necessary, (2) forward, (3) add a
`LayerNode` and stamp the outputs unless `_nodes_fixed`.  The
`tf.convert_to_tensor` applied to inputs of a designated input-producing class
is the identity on tensor objects in this model. -/
def Layer.call {V W : Type} (impl : LayerImpl V W) (lid : Nat) (s : LayerState V W)
    (inputs : Tensors V) : Option (Tensors V × LayerState V W) :=
  let input_tensors := inputs
  let s1 := Layer.buildPhase impl s input_tensors
  let outputs := impl.forward s1 input_tensors
  if s1.nodes_fixed then some (outputs, s1)
  else
    match Layer.addNode impl.isInputClass lid s1 input_tensors outputs with
    | none => none
    | some (s2, stamped) => some (stamped, s2)

/-- `Layer._set_mode_for_layers(is_train)` of the base class. -/
def Layer.setModeForLayers {V W : Type} (s : LayerState V W) (is_train : Bool) :
    LayerState V W :=
  { s with is_train := is_train }

/-- `LayerNode.__call__(inputs)`: forward through the owning layer, overwrite
the node's own `in_tensors` / `out_tensors` with the list-wrapped inputs and
outputs, and return the outputs.  The owning layer's state is returned
untouched. -/
def LayerNode.call {V W : Type} (impl : LayerImpl V W) (ls : LayerState V W)
    (node : LayerNode V) (inputs : Tensors V) :
    Tensors V × LayerNode V × LayerState V W :=
  let outputs := impl.forward ls inputs
  (outputs,
    { node with in_tensors := some inputs.toList, out_tensors := some outputs.toList },
    ls)

/-- The process-wide `_global_layer_name_dict`, a map from lowercased class
name to the per-class counter. -/
abbrev GDict := String → Option Nat

/-- `_global_layer_name_dict[cname] = v`. -/
def GDict.set (d : GDict) (k : String) (v : Nat) : GDict :=
  fun k' => if k' = k then some v else d k'

/-- The auto-naming branch of `Layer.__init__` for `name=None`: if the class
counter exists, increment it and suffix the class name with the new value;
otherwise create the counter at 0 and use the bare class name.  `str(...)` is
decimal rendering, `Nat.repr`. -/
def layerAutoName (d : GDict) (cname : String) : String × GDict :=
  match d cname with
  | some n => (cname ++ "_" ++ Nat.repr (n + 1), GDict.set d cname (n + 1))
  | none => (cname, GDict.set d cname 0)

/-- The global dict after `k` constructions with `name=None` of a class whose
lowercased name is `cname`, starting from dict `d`. -/
def autoNameStateN (d : GDict) (cname : String) : Nat → GDict
  | 0 => d
  | k + 1 => (layerAutoName (autoNameStateN d cname k) cname).2

/-- The auto-generated name produced by the `k`-th (0-based) construction with
`name=None` of a class with lowercased name `cname`, starting from dict `d`. -/
def autoNameAt (d : GDict) (cname : String) (k : Nat) : String :=
  (layerAutoName (autoNameStateN d cname k) cname).1

/-- `Layer.__init__(name)`: resolve the name (auto-generated from the global
dict when `name` is `None`) and initialize the mutable attributes. -/
def Layer.init {V W : Type} (d : GDict) (cname : String) (nameArg : Option String) :
    LayerState V W × GDict :=
  let resolved := match nameArg with
    | some nm => (nm, d)
    | none => layerAutoName d cname
  ({ name := resolved.1, built := false, nodes := [], nodes_fixed := false,
     weights := none, is_train := true }, resolved.2)

/-- A raised Python exception: the generic `Exception` or a `TypeError`. -/
inductive PyError where
  | exception (msg : String)
  | typeError (msg : String)

/-- The base class `Layer.build`: always raises. -/
def Layer.buildAbstract (inputs_shape : ShapeMem) : Except PyError Unit :=
  Except.error (PyError.exception
    "The build(self, inputs_shape) method must be implemented by inherited class")

/-- The base class `Layer.forward`: always raises. -/
def Layer.forwardAbstract {V : Type} (inputs : Tensors V) : Except PyError (Tensors V) :=
  Except.error (PyError.exception "The forward method must be implemented by inherited class")

/-- `Layer.__setitem__(key, item)`: raises a `TypeError` before touching any
attribute, so the layer state comes back unchanged. -/
def Layer.setitem {V W K I : Type} (s : LayerState V W) (key : K) (item : I) :
    LayerState V W × Except PyError Unit :=
  (s, Except.error (PyError.typeError
    "The Layer API does not allow to use the method: `__setitem__`"))

/-- `Layer.__delitem__(key)`: raises a `TypeError` before touching any
attribute, so the layer state comes back unchanged. -/
def Layer.delitem {V W K : Type} (s : LayerState V W) (key : K) :
    LayerState V W × Except PyError Unit :=
  (s, Except.error (PyError.typeError
    "The Layer API does not allow to use the method: `__delitem__`"))

/-- The interface a wrapped `tl.models.Model` object offers to `ModelLayer`:
its name, its weights, its `forward`, and its `_set_mode_for_layers` (the
model type `M` itself stays abstract). -/
structure ModelIface (V W M : Type) where
  mname : M → String
  weights : M → Option (List W)
  forward : M → Tensors V → Tensors V
  setModeForLayers : M → Bool → M

/-- The state of a `ModelLayer` object: the inherited `Layer` attributes plus
the wrapped model. -/
structure ModelLayerState (V W M : Type) where
  base : LayerState V W
  model : M

/-- `ModelLayer.__init__(model, name)`: run `Layer.__init__` (class name
`modellayer`), then set `_built = True`, `_weights = model.weights`,
`is_train = True`, and store the model. -/
def ModelLayer.init {V W M : Type} (iface : ModelIface V W M) (d : GDict)
    (nameArg : Option String) (m : M) : ModelLayerState V W M × GDict :=
  let s0 := (Layer.init d "modellayer" nameArg : LayerState V W × GDict)
  ({ base := { s0.1 with built := true, weights := iface.weights m, is_train := true },
     model := m }, s0.2)

/-- `ModelLayer.build(inputs_shape)`: `pass`. -/
def ModelLayer.build {V W M : Type} (ml : ModelLayerState V W M)
    (inputs_shape : ShapeMem) : ModelLayerState V W M :=
  ml

/-- `ModelLayer.forward(inputs)`: `return self.model.forward(inputs)`. -/
def ModelLayer.forward {V W M : Type} (iface : ModelIface V W M)
    (ml : ModelLayerState V W M) (inputs : Tensors V) : Tensors V :=
  iface.forward ml.model inputs

/-- `ModelLayer._set_mode_for_layers(is_train)`: set the layer's own flag and
delegate to the wrapped model's `_set_mode_for_layers`. -/
def ModelLayer.setModeForLayers {V W M : Type} (iface : ModelIface V W M)
    (ml : ModelLayerState V W M) (is_train : Bool) : ModelLayerState V W M :=
  { base := { ml.base with is_train := is_train },
    model := iface.setModeForLayers ml.model is_train }

/-- A child layer of a `LayerList`: the object identity, the subclass
implementation, and the current state. -/
structure PLayer (V W : Type) where
  id : Nat
  impl : LayerImpl V W
  st : LayerState V W

/-- `layer(in_tensor)` on a child: `Layer.__call__` threading the child's
state. -/
def PLayer.call {V W : Type} (p : PLayer V W) (x : Tensors V) :
    Option (Tensors V × PLayer V W) :=
  match Layer.call p.impl p.id p.st x with
  | none => none
  | some (out, s') => some (out, { p with st := s' })

/-- `layer._built = True` on a child. -/
def PLayer.markBuilt {V W : Type} (p : PLayer V W) : PLayer V W :=
  { p with st := { p.st with built := true } }

/-- The loop body of `LayerList.build`: call each child on the running tensor,
extend `self._weights` with the child's weights when the child was unbuilt at
the start of its step and has non-`None` weights afterwards, force the child's
`_built` flag, and feed the child's output to the next child.  Returns the
updated children, the accumulated `_weights`, and the final tensor. -/
def LayerList.buildGo {V W : Type} :
    List (PLayer V W) → Tensors V → Option (List W) →
    Option (List (PLayer V W) × Option (List W) × Tensors V)
  | [], in_tensor, w => some ([], w, in_tensor)
  | layer :: rest, in_tensor, w =>
    let is_build := layer.st.built
    match layer.call in_tensor with
    | none => none
    | some (out_tensor, layer1) =>
      let w1 := if is_build = false then
          match layer1.st.weights with
          | some lw => some (w.getD [] ++ lw)
          | none => w
        else w
      let layer2 := layer1.markBuilt
      match LayerList.buildGo rest out_tensor w1 with
      | none => none
      | some (rest', w', t') => some (layer2 :: rest', w', t')

/-- `LayerList.build(inputs_shape)`: start from the stored `_input_tensors`
(never set means an AttributeError) and run the chaining loop over the
children, accumulating `self._weights`. -/
def LayerList.build {V W : Type} (s : LayerState V W) (children : List (PLayer V W)) :
    Option (List (PLayer V W) × LayerState V W) :=
  match s.input_tensors with
  | none => none
  | some in_tensor =>
    match LayerList.buildGo children in_tensor s.weights with
    | none => none
    | some (children', w', _) => some (children', { s with weights := w' })

/-- `LayerList.forward(inputs)`: `z = inputs; for layer in self.layers:
z = layer.forward(z); return z`. -/
def LayerList.forward {V W : Type} (children : List (PLayer V W)) (inputs : Tensors V) :
    Tensors V :=
  children.foldl (fun z layer => layer.impl.forward layer.st z) inputs

/-- Specification-side reading of sequential composition ("build wires each
child's output to the next child's input"): call children left to right, each
on the previous child's output. -/
def chainCalls {V W : Type} :
    List (PLayer V W) → Tensors V → Option (List (PLayer V W) × Tensors V)
  | [], t => some ([], t)
  | l :: rest, t =>
    match l.call t with
    | none => none
    | some (out, l') =>
      match chainCalls rest out with
      | none => none
      | some (rest', t') => some (l' :: rest', t')

/-- Specification-side reading of weight accumulation: along the chain of
calls, collect in order the weights of every child that was unbuilt at the
start of its step and has non-`None` weights afterwards. -/
def collectedNewWeights {V W : Type} : List (PLayer V W) → Tensors V → List W
  | [], _ => []
  | l :: rest, t =>
    match l.call t with
    | none => []
    | some (out, l') =>
      (if l.st.built = false then l'.st.weights.getD [] else []) ++
        collectedNewWeights rest out

/-- Specification-side reading of `LayerList.forward`: the left-to-right
composition of a list of functions. -/
def composeForwards {V : Type} : List (Tensors V → Tensors V) → Tensors V → Tensors V
  | [], x => x
  | f :: fs, x => composeForwards fs (f x)

/-- Nesting structure of layers as seen by train-mode toggling: a plain
`Layer` (only its `is_train` flag matters here), a `LayerList` with its
children, or a `ModelLayer` wrapping a model.  Modelled from the spec: the
wrapped `tl.models.Model` class is not part of this module, and per the spec
it holds layers and train-mode toggling recurses through them, so a model is
carried as its list of layers. -/
inductive LObj where
  | plain (is_train : Bool)
  | llist (is_train : Bool) (children : List LObj)
  | mlayer (is_train : Bool) (modelLayers : List LObj)

mutual

/-- Train-mode toggling, dispatched as the source does: `Layer` sets its own
flag; `LayerList._set_mode_for_layers` sets its own flag and walks its
children; `ModelLayer._set_mode_for_layers` sets its own flag and delegates to
the wrapped model.  Modelled from the spec: the model's own
`_set_mode_for_layers` recurses through the layers it holds. -/
def LObj.setModeForLayers : LObj → Bool → LObj
  | .plain _, b => .plain b
  | .llist _ cs, b => .llist b (setModeChildList cs b)
  | .mlayer _ ls, b => .mlayer b (setModeModelLayerList ls b)

/-- The loop of `LayerList._set_mode_for_layers`: recurse into a `ModelLayer`
or a `LayerList` child, and assign `layer.is_train = is_train` on any other
child. -/
def setModeChildList : List LObj → Bool → List LObj
  | [], _ => []
  | .mlayer t ls :: cs, b =>
    LObj.setModeForLayers (.mlayer t ls) b :: setModeChildList cs b
  | .llist t cs2 :: cs, b =>
    LObj.setModeForLayers (.llist t cs2) b :: setModeChildList cs b
  | .plain _ :: cs, b => .plain b :: setModeChildList cs b

/-- Modelled from the spec: `Model._set_mode_for_layers` toggles every layer
the model holds. -/
def setModeModelLayerList : List LObj → Bool → List LObj
  | [], _ => []
  | l :: ls, b => LObj.setModeForLayers l b :: setModeModelLayerList ls b

end

mutual

/-- The `is_train` flags of a layer and of every transitively nested layer. -/
def LObj.trainFlags : LObj → List Bool
  | .plain t => [t]
  | .llist t cs => t :: trainFlagsList cs
  | .mlayer t ls => t :: trainFlagsList ls

/-- The `is_train` flags of every layer in a list, transitively. -/
def trainFlagsList : List LObj → List Bool
  | [] => []
  | l :: ls => LObj.trainFlags l ++ trainFlagsList ls

end

/-- Decimal digit loop: a fuel-indexed restatement of `Nat.toDigitsCore 10`,
convenient for induction. -/
def decLoop : Nat → Nat → List Char → List Char
  | 0, _, ds => ds
  | fuel + 1, n, ds =>
    if n / 10 = 0 then Nat.digitChar (n % 10) :: ds
    else decLoop fuel (n / 10) (Nat.digitChar (n % 10) :: ds)

/-- A concrete tensor for witnesses. -/
def tW : Tensor Nat := { val := 5, shape := [2, 3], info := none }

/-- A concrete input-producing layer implementation: identity forward, build
keeps the weights unchanged. -/
def implInputW : LayerImpl Nat Nat :=
  { isInputClass := true, isLayerList := false,
    build := fun _ w => w, forward := fun _ x => x }

/-- A concrete input-producing layer implementation whose build defines one
weight. -/
def implBuildW : LayerImpl Nat Nat :=
  { isInputClass := true, isLayerList := false,
    build := fun _ _ => some [7], forward := fun _ x => x }

/-- A concrete freshly initialized layer state. -/
def sW : LayerState Nat Nat :=
  { name := "dense", built := false, nodes := [], nodes_fixed := false,
    weights := none, is_train := true }

/-- The output of calling `implInputW` on `tW` from state `sW`: the identity
forward result, stamped with the back-reference to node 0 of layer 0. -/
def outW : Tensors Nat := .single { val := 5, shape := [2, 3], info := some ((0, 0), 0) }

/-- The node recorded by that call. -/
def ndW : LayerNode Nat :=
  { layerId := 0, node_index := 0, in_nodes := [], out_nodes := [],
    in_tensors := some [{ val := 5, shape := [2, 3], info := none }],
    out_tensors := some [{ val := 5, shape := [2, 3], info := some ((0, 0), 0) }],
    name := "dense_node_0" }

/-- The layer state after that call. -/
def sW' : LayerState Nat Nat :=
  { name := "dense", built := true, nodes := [ndW], nodes_fixed := false,
    weights := none, is_train := true }

/-- A concrete input tensor carrying an `_info` back-reference. -/
def tInfoW : Tensor Nat := { val := 4, shape := [1], info := some ((9, 0), 1) }

/-- The layer state after `_add_node` on `sW` with input `tInfoW` and output
`tW`. -/
def s2W : LayerState Nat Nat :=
  { name := "dense", built := false,
    nodes := [{ layerId := 0, node_index := 0, in_nodes := [(9, 0)], out_nodes := [],
                in_tensors := some [{ val := 4, shape := [1], info := some ((9, 0), 1) }],
                out_tensors := some [{ val := 5, shape := [2, 3], info := some ((0, 0), 0) }],
                name := "dense_node_0" }],
    nodes_fixed := false, weights := none, is_train := true }

/-- A concrete unbuilt child layer of a `LayerList`. -/
def childW : PLayer Nat Nat :=
  { id := 1, impl := implBuildW,
    st := { name := "inner", built := false, nodes := [], nodes_fixed := false,
            weights := none, is_train := true } }

/-- The child after `LayerList.build` ran it: built, one recorded node, and
the weight its build defined. -/
def childW' : PLayer Nat Nat :=
  { id := 1, impl := implBuildW,
    st := { name := "inner", built := true,
            nodes := [{ layerId := 1, node_index := 0, in_nodes := [], out_nodes := [],
                        in_tensors := some [{ val := 5, shape := [2, 3], info := none }],
                        out_tensors := some [{ val := 5, shape := [2, 3],
                                               info := some ((1, 0), 0) }],
                        name := "inner_node_0" }],
            nodes_fixed := false, weights := some [7], is_train := true } }

/-- A concrete `LayerList` state with stored input tensors. -/
def selfW : LayerState Nat Nat :=
  { name := "layerlist", built := false, nodes := [], nodes_fixed := false,
    weights := none, is_train := true, input_tensors := some (.single tW) }

/-- The `LayerList` state after `build`: the child's weight accumulated. -/
def selfW' : LayerState Nat Nat :=
  { name := "layerlist", built := false, nodes := [], nodes_fixed := false,
    weights := some [7], is_train := true, input_tensors := some (.single tW) }

/-- An empty global naming dict. -/
def dFresh : GDict := fun _ => none

theorem decLoop_eq_toDigitsCore : ∀ (fuel n : Nat) (ds : List Char),
    decLoop fuel n ds = Nat.toDigitsCore 10 fuel n ds
  | 0, _, ds => by
    simp only [decLoop]
    rw [Nat.toDigitsCore.eq_def]
  | fuel + 1, n, ds => by
    simp only [decLoop]
    rw [Nat.toDigitsCore.eq_def]
    dsimp only []
    split
    · rfl
    · rw [decLoop_eq_toDigitsCore]

theorem decLoop_shift (fuel : Nat) : ∀ (n : Nat) (ds : List Char),
    decLoop fuel n ds = decLoop fuel n [] ++ ds := by
  induction fuel with
  | zero => intro n ds; simp [decLoop]
  | succ fuel ih =>
    intro n ds
    simp only [decLoop]
    split
    · simp
    · rw [ih, ih (n / 10) [Nat.digitChar (n % 10)]]
      simp

theorem decLoop_fuel (n : Nat) : ∀ (f1 f2 : Nat) (ds : List Char),
    n < f1 → n < f2 → decLoop f1 n ds = decLoop f2 n ds := by
  induction n using Nat.strongRecOn with
  | _ n ih =>
    intro f1 f2 ds h1 h2
    match f1, f2 with
    | 0, _ => omega
    | _ + 1, 0 => omega
    | g1 + 1, g2 + 1 =>
      simp only [decLoop]
      split
      · rfl
      · exact ih (n / 10) (by omega) g1 g2 _ (by omega) (by omega)

theorem digitChar_readback (n : Nat) (h : n < 10) :
    (Nat.digitChar n).toNat - Char.toNat '0' = n := by
  interval_cases n <;> decide

theorem decLoop_readback (n : Nat) :
    List.foldl (fun acc c => acc * 10 + (c.toNat - Char.toNat '0')) 0
      (decLoop (n + 1) n []) = n := by
  induction n using Nat.strongRecOn with
  | _ n ih =>
    simp only [decLoop]
    split
    · simp only [List.foldl]
      rw [digitChar_readback (n % 10) (Nat.mod_lt n (by omega))]
      omega
    · rw [decLoop_shift, List.foldl_append]
      rw [decLoop_fuel (n / 10) n (n / 10 + 1) [] (by omega) (by omega)]
      rw [ih (n / 10) (by omega)]
      simp only [List.foldl]
      rw [digitChar_readback (n % 10) (Nat.mod_lt n (by omega))]
      omega

theorem toDigits_ten_inj {a b : Nat} (h : Nat.toDigits 10 a = Nat.toDigits 10 b) :
    a = b := by
  have ha := decLoop_readback a
  have hb := decLoop_readback b
  rw [Nat.toDigits.eq_def, Nat.toDigits.eq_def] at h
  rw [← decLoop_eq_toDigitsCore, ← decLoop_eq_toDigitsCore] at h
  rw [← h] at hb
  omega

/-- Decimal rendering of a natural number is injective: two distinct counter
values never yield the same `str(...)` suffix. -/
theorem nat_repr_inj {a b : Nat} (h : Nat.repr a = Nat.repr b) : a = b := by
  rw [Nat.repr.eq_def, Nat.repr.eq_def] at h
  exact toDigits_ten_inj (congrArg String.data h)

theorem nat_repr_data_inj {a b : Nat} (h : (Nat.repr a).data = (Nat.repr b).data) :
    a = b := by
  rw [Nat.repr.eq_def, Nat.repr.eq_def] at h
  exact toDigits_ten_inj h

theorem autoName_ne_base (cname : String) (k : Nat) :
    cname ≠ cname ++ "_" ++ Nat.repr k := by
  intro h
  have hd := congrArg String.data h
  rw [String.data_append, String.data_append] at hd
  have hl := congrArg List.length hd
  rw [List.length_append, List.length_append] at hl
  have h1 : ("_" : String).data.length = 1 := rfl
  rw [h1] at hl
  omega

theorem autoName_suffix_inj (cname : String) {j k : Nat}
    (h : cname ++ "_" ++ Nat.repr j = cname ++ "_" ++ Nat.repr k) : j = k := by
  have hd := congrArg String.data h
  rw [String.data_append, String.data_append, String.data_append, String.data_append] at hd
  rw [List.append_assoc, List.append_assoc] at hd
  exact nat_repr_data_inj (List.append_cancel_left (List.append_cancel_left hd))

theorem autoNameStateN_fresh (d : GDict) (cname : String) (h : d cname = none) :
    ∀ k : Nat, autoNameStateN d cname (k + 1) cname = some k := by
  intro k
  induction k with
  | zero => simp [autoNameStateN, layerAutoName, h, GDict.set]
  | succ k ih =>
    show (layerAutoName (autoNameStateN d cname (k + 1)) cname).2 cname = some (k + 1)
    simp [layerAutoName, ih, GDict.set]

theorem autoNameAt_zero (d : GDict) (cname : String) (h : d cname = none) :
    autoNameAt d cname 0 = cname := by
  simp [autoNameAt, autoNameStateN, layerAutoName, h]

theorem autoNameAt_succ (d : GDict) (cname : String) (h : d cname = none) (k : Nat) :
    autoNameAt d cname (k + 1) = cname ++ "_" ++ Nat.repr (k + 1) := by
  simp [autoNameAt, layerAutoName, autoNameStateN_fresh d cname h k]

theorem buildPhase_nodes {V W : Type} (impl : LayerImpl V W) (s : LayerState V W)
    (x : Tensors V) : (Layer.buildPhase impl s x).nodes = s.nodes := by
  simp only [Layer.buildPhase]
  split
  · rfl
  · split <;> rfl

theorem buildPhase_nodes_fixed {V W : Type} (impl : LayerImpl V W) (s : LayerState V W)
    (x : Tensors V) : (Layer.buildPhase impl s x).nodes_fixed = s.nodes_fixed := by
  simp only [Layer.buildPhase]
  split
  · rfl
  · split <;> rfl

theorem buildPhase_built {V W : Type} (impl : LayerImpl V W) (s : LayerState V W)
    (x : Tensors V) : (Layer.buildPhase impl s x).built = true := by
  simp only [Layer.buildPhase]
  split
  · assumption
  · split <;> rfl

theorem buildPhase_weights_not_built {V W : Type} (impl : LayerImpl V W)
    (s : LayerState V W) (x : Tensors V) (h : s.built = false) :
    (Layer.buildPhase impl s x).weights = impl.build (Layer.computeShape x) s.weights := by
  simp only [Layer.buildPhase, h]
  split
  · simp_all
  · split <;> rfl

theorem buildPhase_of_built {V W : Type} (impl : LayerImpl V W) (s : LayerState V W)
    (x : Tensors V) (h : s.built = true) : Layer.buildPhase impl s x = s := by
  simp [Layer.buildPhase, h]

theorem stampList_length {V : Type} (r : NodeRef) :
    ∀ (k : Nat) (ts : List (Tensor V)), (stampList r k ts).length = ts.length := by
  intro k ts
  induction ts generalizing k with
  | nil => rfl
  | cons t ts ih => simp [stampList, ih]

theorem stampList_info {V : Type} (r : NodeRef) :
    ∀ (ts : List (Tensor V)) (k i : Nat) (hi : i < (stampList r k ts).length),
      ((stampList r k ts).get ⟨i, hi⟩).info = some (r, k + i) := by
  intro ts
  induction ts with
  | nil => intro k i hi; simp [stampList] at hi
  | cons t ts ih =>
    intro k i hi
    match i with
    | 0 => rfl
    | i + 1 =>
      have := ih (k + 1) i (by simpa [stampList] using Nat.lt_of_succ_lt_succ hi)
      simpa [stampList, Nat.add_assoc, Nat.add_comm 1 i] using this

theorem stampInfo_toList_length {V : Type} (r : NodeRef) (out : Tensors V) :
    (stampInfo r out).toList.length = out.toList.length := by
  cases out with
  | single t => rfl
  | list ts => simp [stampInfo, Tensors.toList, stampList_length]

theorem stampInfo_toList_info {V : Type} (r : NodeRef) (out : Tensors V) :
    ∀ (i : Nat) (hi : i < (stampInfo r out).toList.length),
      (((stampInfo r out).toList).get ⟨i, hi⟩).info = some (r, i) := by
  intro i hi
  cases out with
  | single t =>
    match i, hi with
    | 0, _ => rfl
  | list ts =>
    have := stampList_info r ts 0 i (by simpa [stampInfo, Tensors.toList] using hi)
    simpa [stampInfo, Tensors.toList] using this

theorem stampList_eraseInfo {V : Type} (r : NodeRef) :
    ∀ (k : Nat) (ts : List (Tensor V)),
      (stampList r k ts).map Tensor.eraseInfo = ts.map Tensor.eraseInfo := by
  intro k ts
  induction ts generalizing k with
  | nil => rfl
  | cons t ts ih => simp [stampList, ih, Tensor.eraseInfo]

theorem stampInfo_eraseInfo {V : Type} (r : NodeRef) (out : Tensors V) :
    (stampInfo r out).eraseInfo = out.eraseInfo := by
  cases out with
  | single t => rfl
  | list ts => simp [stampInfo, Tensors.eraseInfo, stampList_eraseInfo]

theorem addNode_spec {V W : Type} {isInput : Bool} {lid : Nat} {s : LayerState V W}
    {ins outs : Tensors V} {s2 : LayerState V W} {st2 : Tensors V}
    (h : Layer.addNode isInput lid s ins outs = some (s2, st2)) :
    ∃ nd : LayerNode V,
      s2.nodes = s.nodes ++ [nd] ∧
      nd.node_index = s.nodes.length ∧
      st2 = stampInfo (lid, s.nodes.length) outs ∧
      s2.weights = s.weights ∧
      s2.built = s.built ∧
      s2.nodes_fixed = s.nodes_fixed ∧
      (isInput = true → nd.in_nodes = []) ∧
      (isInput = false → collectInfoRefs ins.toList = some nd.in_nodes) := by
  simp only [Layer.addNode] at h
  rcases hin : (if isInput = true then some ([] : List NodeRef) else collectInfoRefs ins.toList)
    with _ | in_nodes
  · rw [hin] at h
    simp at h
  · rw [hin] at h
    simp only [Option.some.injEq, Prod.mk.injEq] at h
    obtain ⟨hs2, hst2⟩ := h
    subst hs2
    subst hst2
    refine ⟨{ layerId := lid, node_index := s.nodes.length, in_nodes := in_nodes,
              out_nodes := [], in_tensors := some ins.toList,
              out_tensors := some (stampInfo (lid, s.nodes.length) outs).toList,
              name := s.name ++ "_node_" ++ Nat.repr s.nodes.length },
           rfl, rfl, rfl, rfl, rfl, rfl, ?_, ?_⟩
    · intro hInp
      rw [hInp] at hin
      simpa using hin.symm
    · intro hInp
      rw [hInp] at hin
      simpa using hin

theorem call_of_fixed {V W : Type} (impl : LayerImpl V W) (lid : Nat)
    (s : LayerState V W) (x : Tensors V)
    (h : (Layer.buildPhase impl s x).nodes_fixed = true) :
    Layer.call impl lid s x =
      some (impl.forward (Layer.buildPhase impl s x) x, Layer.buildPhase impl s x) := by
  simp only [Layer.call, h, if_true]

theorem call_of_not_fixed {V W : Type} (impl : LayerImpl V W) (lid : Nat)
    (s : LayerState V W) (x : Tensors V)
    (h : (Layer.buildPhase impl s x).nodes_fixed = false) :
    Layer.call impl lid s x =
      (match Layer.addNode impl.isInputClass lid (Layer.buildPhase impl s x) x
          (impl.forward (Layer.buildPhase impl s x) x) with
        | none => none
        | some (s2, stamped) => some (stamped, s2)) := by
  simp only [Layer.call, h, Bool.false_eq_true, if_false]

theorem call_result_spec {V W : Type} {impl : LayerImpl V W} {lid : Nat}
    {s : LayerState V W} {x : Tensors V} {out : Tensors V} {s' : LayerState V W}
    (h : Layer.call impl lid s x = some (out, s')) :
    out.eraseInfo = (impl.forward (Layer.buildPhase impl s x) x).eraseInfo ∧
    s'.weights = (Layer.buildPhase impl s x).weights ∧
    s'.built = (Layer.buildPhase impl s x).built := by
  cases hfix : (Layer.buildPhase impl s x).nodes_fixed with
  | true =>
    rw [call_of_fixed impl lid s x hfix] at h
    simp only [Option.some.injEq, Prod.mk.injEq] at h
    obtain ⟨hout, hs'⟩ := h
    subst hout
    subst hs'
    exact ⟨rfl, rfl, rfl⟩
  | false =>
    rw [call_of_not_fixed impl lid s x hfix] at h
    rcases hadd : Layer.addNode impl.isInputClass lid (Layer.buildPhase impl s x) x
        (impl.forward (Layer.buildPhase impl s x) x) with _ | ⟨s2, st2⟩
    · rw [hadd] at h
      simp at h
    · rw [hadd] at h
      simp only [Option.some.injEq, Prod.mk.injEq] at h
      obtain ⟨hout, hs'⟩ := h
      subst hout
      subst hs'
      obtain ⟨nd, hnodes, hidx, hst2, hw, hb, hfx, hinT, hinF⟩ := addNode_spec hadd
      subst hst2
      exact ⟨stampInfo_eraseInfo _ _, hw, hb⟩

/-- C1: a `Layer.__call__` on a layer whose `_nodes_fixed` flag is false
appends exactly one new `LayerNode` to `_nodes`, its `node_index` is the
length of `_nodes` before the append, and every tensor of the list-wrapped
output gets `_info` set to (that new node, its position index); when
`_nodes_fixed` is true, `_nodes` and the output tensors are returned exactly
as forward produced them. -/
theorem layer_call_node_tracking {V W : Type} (impl : LayerImpl V W) (lid : Nat)
    (s : LayerState V W) (x : Tensors V) :
    (s.nodes_fixed = false →
      ∀ (out : Tensors V) (s' : LayerState V W), Layer.call impl lid s x = some (out, s') →
        ∃ nd : LayerNode V,
          s'.nodes = s.nodes ++ [nd] ∧
          nd.node_index = s.nodes.length ∧
          out.toList.length =
            (impl.forward (Layer.buildPhase impl s x) x).toList.length ∧
          ∀ (i : Nat) (hi : i < out.toList.length),
            (out.toList.get ⟨i, hi⟩).info = some ((lid, nd.node_index), i)) ∧
    (s.nodes_fixed = true →
      Layer.call impl lid s x =
        some (impl.forward (Layer.buildPhase impl s x) x, Layer.buildPhase impl s x) ∧
      (Layer.buildPhase impl s x).nodes = s.nodes) := by
  constructor
  · intro hf out s' hc
    have hfix : (Layer.buildPhase impl s x).nodes_fixed = false :=
      (buildPhase_nodes_fixed impl s x).trans hf
    rw [call_of_not_fixed impl lid s x hfix] at hc
    rcases hadd : Layer.addNode impl.isInputClass lid (Layer.buildPhase impl s x) x
        (impl.forward (Layer.buildPhase impl s x) x) with _ | ⟨s2, st2⟩
    · rw [hadd] at hc
      simp at hc
    · rw [hadd] at hc
      simp only [Option.some.injEq, Prod.mk.injEq] at hc
      obtain ⟨hout, hs'⟩ := hc
      subst hout
      subst hs'
      obtain ⟨nd, hnodes, hidx, hst2, _, _, _, _, _⟩ := addNode_spec hadd
      have hbn := buildPhase_nodes impl s x
      rw [hbn] at hnodes hidx hst2
      refine ⟨nd, hnodes, hidx, ?_, ?_⟩
      · rw [hst2]
        exact stampInfo_toList_length _ _
      · intro i hi
        subst hst2
        rw [hidx]
        exact stampInfo_toList_info _ _ i hi
  · intro hf
    have hfix : (Layer.buildPhase impl s x).nodes_fixed = true :=
      (buildPhase_nodes_fixed impl s x).trans hf
    exact ⟨call_of_fixed impl lid s x hfix, buildPhase_nodes impl s x⟩

theorem layer_call_node_tracking_witness :
    ∃ nd : LayerNode Nat,
      sW'.nodes = sW.nodes ++ [nd] ∧
      nd.node_index = sW.nodes.length ∧
      outW.toList.length =
        (implInputW.forward (Layer.buildPhase implInputW sW (Tensors.single tW))
          (Tensors.single tW)).toList.length ∧
      ∀ (i : Nat) (hi : i < outW.toList.length),
        (outW.toList.get ⟨i, hi⟩).info = some ((0, nd.node_index), i) :=
  (layer_call_node_tracking implInputW 0 sW (Tensors.single tW)).1 rfl outW sW' rfl

/-- C2: when `_built` is false, a call invokes `build` exactly once on the
shape computed from the input tensors and sets `_built` to true before
forward runs (the forward output is computed from the built state); when
`_built` is true, `build` is not invoked; in all cases the returned tensors
are the value of `forward` on the input tensors (only their `_info`
back-references may differ by the node stamping). -/
theorem layer_call_lazy_build {V W : Type} (impl : LayerImpl V W) (lid : Nat)
    (s : LayerState V W) (x : Tensors V) :
    (s.built = false →
      (Layer.buildPhase impl s x).built = true ∧
      (Layer.buildPhase impl s x).weights = impl.build (Layer.computeShape x) s.weights ∧
      ∀ (out : Tensors V) (s' : LayerState V W), Layer.call impl lid s x = some (out, s') →
        out.eraseInfo = (impl.forward (Layer.buildPhase impl s x) x).eraseInfo ∧
        s'.built = true ∧
        s'.weights = impl.build (Layer.computeShape x) s.weights) ∧
    (s.built = true →
      Layer.buildPhase impl s x = s ∧
      ∀ (out : Tensors V) (s' : LayerState V W), Layer.call impl lid s x = some (out, s') →
        out.eraseInfo = (impl.forward s x).eraseInfo ∧
        s'.weights = s.weights) := by
  constructor
  · intro hb
    refine ⟨buildPhase_built impl s x, buildPhase_weights_not_built impl s x hb, ?_⟩
    intro out s' hc
    obtain ⟨ho, hw, hbt⟩ := call_result_spec hc
    exact ⟨ho, hbt.trans (buildPhase_built impl s x),
      hw.trans (buildPhase_weights_not_built impl s x hb)⟩
  · intro hb
    have hbp := buildPhase_of_built impl s x hb
    refine ⟨hbp, ?_⟩
    intro out s' hc
    obtain ⟨ho, hw, _⟩ := call_result_spec hc
    rw [hbp] at ho hw
    exact ⟨ho, hw⟩

theorem layer_call_lazy_build_witness :
    outW.eraseInfo =
      (implInputW.forward (Layer.buildPhase implInputW sW (Tensors.single tW))
        (Tensors.single tW)).eraseInfo ∧
    sW'.built = true ∧
    sW'.weights = implInputW.build (Layer.computeShape (Tensors.single tW)) sW.weights :=
  ((layer_call_lazy_build implInputW 0 sW (Tensors.single tW)).1 rfl).2.2 outW sW' rfl

theorem collectInfoRefs_of_all_some {V : Type} :
    ∀ (ts : List (Tensor V)) (infos : List (NodeRef × Nat)),
      ts.map Tensor.info = infos.map some →
      collectInfoRefs ts = some (infos.map Prod.fst) := by
  intro ts
  induction ts with
  | nil =>
    intro infos h
    cases infos with
    | nil => rfl
    | cons p ps => simp at h
  | cons t ts ih =>
    intro infos h
    cases infos with
    | nil => simp at h
    | cons p ps =>
      simp only [List.map_cons, List.cons.injEq] at h
      obtain ⟨hp, hps⟩ := h
      simp only [collectInfoRefs, hp, ih ps hps, List.map_cons]

/-- C7: the node added for a layer that is not a designated input-producing
class has `in_nodes` equal to the list of first components of the input
tensors' `_info` back-references, in input order; for a designated
input-producing class the node's `in_nodes` is empty. -/
theorem addnode_in_nodes {V W : Type} (lid : Nat) (s : LayerState V W)
    (ins outs : Tensors V) :
    (∀ (s2 : LayerState V W) (st2 : Tensors V),
      Layer.addNode true lid s ins outs = some (s2, st2) →
      ∃ nd : LayerNode V, s2.nodes = s.nodes ++ [nd] ∧ nd.in_nodes = []) ∧
    (∀ infos : List (NodeRef × Nat), ins.toList.map Tensor.info = infos.map some →
      ∀ (s2 : LayerState V W) (st2 : Tensors V),
      Layer.addNode false lid s ins outs = some (s2, st2) →
      ∃ nd : LayerNode V, s2.nodes = s.nodes ++ [nd] ∧
        nd.in_nodes = infos.map Prod.fst) := by
  constructor
  · intro s2 st2 h
    obtain ⟨nd, hnodes, _, _, _, _, _, hT, _⟩ := addNode_spec h
    exact ⟨nd, hnodes, hT rfl⟩
  · intro infos hinfos s2 st2 h
    obtain ⟨nd, hnodes, _, _, _, _, _, _, hF⟩ := addNode_spec h
    have hc := collectInfoRefs_of_all_some ins.toList infos hinfos
    rw [hF rfl] at hc
    exact ⟨nd, hnodes, Option.some.inj hc⟩

theorem addnode_in_nodes_witness :
    ∃ nd : LayerNode Nat,
      s2W.nodes = sW.nodes ++ [nd] ∧
      nd.in_nodes = ([(((9 : Nat), (0 : Nat)), (1 : Nat))] : List (NodeRef × Nat)).map Prod.fst :=
  (addnode_in_nodes 0 sW (Tensors.single tInfoW) (Tensors.single tW)).2
    [((9, 0), 1)] rfl s2W outW rfl

/-- C9: the base class `build` and `forward` raise the generic exception on
every invocation, and `__setitem__` / `__delitem__` raise a `TypeError` on
every use regardless of arguments, returning the layer state unchanged. -/
theorem layer_abstract_methods_raise {V W K I : Type} (sh : ShapeMem) (x : Tensors V)
    (s : LayerState V W) (key : K) (item : I) :
    Layer.buildAbstract sh = Except.error (PyError.exception
      "The build(self, inputs_shape) method must be implemented by inherited class") ∧
    Layer.forwardAbstract x = Except.error (PyError.exception
      "The forward method must be implemented by inherited class") ∧
    Layer.setitem s key item = (s, Except.error (PyError.typeError
      "The Layer API does not allow to use the method: `__setitem__`")) ∧
    Layer.delitem s key = (s, Except.error (PyError.typeError
      "The Layer API does not allow to use the method: `__delitem__`")) :=
  ⟨rfl, rfl, rfl, rfl⟩

/-- C10: replaying a node via `LayerNode.__call__` returns exactly the owning
layer's `forward` on the inputs and overwrites only the node's own
`in_tensors` and `out_tensors` (with the list-wrapped inputs and outputs): it
does not build, does not touch the owning layer's state (in particular its
`_nodes` list), and the returned tensors are the raw forward outputs, so no
tensor `_info` back-reference is modified. -/
theorem layernode_call_frame {V W : Type} (impl : LayerImpl V W) (ls : LayerState V W)
    (node : LayerNode V) (x : Tensors V) :
    (LayerNode.call impl ls node x).1 = impl.forward ls x ∧
    (LayerNode.call impl ls node x).2.2 = ls ∧
    (LayerNode.call impl ls node x).2.1.in_tensors = some x.toList ∧
    (LayerNode.call impl ls node x).2.1.out_tensors = some (impl.forward ls x).toList ∧
    (LayerNode.call impl ls node x).2.1.layerId = node.layerId ∧
    (LayerNode.call impl ls node x).2.1.node_index = node.node_index ∧
    (LayerNode.call impl ls node x).2.1.in_nodes = node.in_nodes ∧
    (LayerNode.call impl ls node x).2.1.out_nodes = node.out_nodes ∧
    (LayerNode.call impl ls node x).2.1.name = node.name :=
  ⟨rfl, rfl, rfl, rfl, rfl, rfl, rfl, rfl, rfl⟩

/-- C5: a `ModelLayer` is already built at construction, its `build` changes
nothing, its `forward` returns exactly the wrapped model's `forward`, its
`_set_mode_for_layers` sets its own `is_train` and delegates to the model's
`_set_mode_for_layers`, and its weights equal the wrapped model's weights. -/
theorem modellayer_delegates {V W M : Type} (iface : ModelIface V W M) (d : GDict)
    (nameArg : Option String) (m : M) (sh : ShapeMem) (x : Tensors V) (b : Bool) :
    (ModelLayer.init iface d nameArg m).1.base.built = true ∧
    ModelLayer.build (ModelLayer.init iface d nameArg m).1 sh =
      (ModelLayer.init iface d nameArg m).1 ∧
    ModelLayer.forward iface (ModelLayer.init iface d nameArg m).1 x =
      iface.forward m x ∧
    (ModelLayer.setModeForLayers iface (ModelLayer.init iface d nameArg m).1 b).base.is_train
      = b ∧
    (ModelLayer.setModeForLayers iface (ModelLayer.init iface d nameArg m).1 b).model =
      iface.setModeForLayers m b ∧
    (ModelLayer.init iface d nameArg m).1.base.weights = iface.weights m :=
  ⟨rfl, rfl, rfl, rfl, rfl, rfl⟩

/-- C4: `LayerList.forward` is the left-to-right composition of the children's
`forward` functions, and returns the input unchanged for an empty list. -/
theorem layerlist_forward_composes {V W : Type} (cs : List (PLayer V W)) (x : Tensors V) :
    LayerList.forward cs x = composeForwards (cs.map fun l => l.impl.forward l.st) x ∧
    LayerList.forward ([] : List (PLayer V W)) x = x := by
  constructor
  · induction cs generalizing x with
    | nil => rfl
    | cons l ls ih =>
      simp only [LayerList.forward, List.foldl_cons, List.map_cons, composeForwards]
      exact ih (l.impl.forward l.st x)
  · rfl

theorem buildGo_spec {V W : Type} :
    ∀ (cs : List (PLayer V W)) (t : Tensors V) (w : Option (List W))
      (cs' : List (PLayer V W)) (w' : Option (List W)) (t' : Tensors V),
      LayerList.buildGo cs t w = some (cs', w', t') →
      (∃ cs0, chainCalls cs t = some (cs0, t') ∧ cs' = cs0.map PLayer.markBuilt) ∧
      (∀ c ∈ cs', c.st.built = true) ∧
      w'.getD [] = w.getD [] ++ collectedNewWeights cs t := by
  intro cs
  induction cs with
  | nil =>
    intro t w cs' w' t' h
    simp only [LayerList.buildGo, Option.some.injEq, Prod.mk.injEq] at h
    obtain ⟨h1, h2, h3⟩ := h
    subst h1
    subst h2
    subst h3
    refine ⟨⟨[], rfl, rfl⟩, by simp, by simp [collectedNewWeights]⟩
  | cons l rest ih =>
    intro t w cs' w' t' h
    simp only [LayerList.buildGo] at h
    split at h
    · simp at h
    · rename_i out l1 hcall
      split at h
      · simp at h
      · rename_i rest' w2 t2 hrest
        simp only [Option.some.injEq, Prod.mk.injEq] at h
        obtain ⟨h1, h2, h3⟩ := h
        subst h1
        subst h2
        subst h3
        obtain ⟨⟨cs0, hchain, hmap⟩, hbuilt, hweights⟩ := ih out _ rest' w2 t2 hrest
        refine ⟨⟨l1 :: cs0, ?_, ?_⟩, ?_, ?_⟩
        · simp only [chainCalls, hcall, hchain]
        · simp only [List.map_cons, hmap]
        · intro c hc
          rcases List.mem_cons.mp hc with hc | hc
          · subst hc
            rfl
          · exact hbuilt c hc
        · rw [hweights]
          simp only [collectedNewWeights, hcall]
          cases hb : l.st.built with
          | false =>
            cases hw1 : l1.st.weights with
            | none => simp [hb, hw1, List.append_assoc]
            | some lw => simp [hb, hw1, List.append_assoc]
          | true => simp [hb, List.append_assoc]

/-- C3: a successful `LayerList.build` feeds the stored input tensors to the
first child and each subsequent child the previous child's output (calling
each child), forces every child's `_built` flag to true, and appends in order
to `_weights` the weights of every child that was unbuilt at the start of its
step and has non-`None` weights afterwards. -/
theorem layerlist_build_chains {V W : Type} (s : LayerState V W)
    (children cs' : List (PLayer V W)) (s' : LayerState V W) :
    LayerList.build s children = some (cs', s') →
    ∃ t : Tensors V, s.input_tensors = some t ∧
      (∃ cs0 t', chainCalls children t = some (cs0, t') ∧
        cs' = cs0.map PLayer.markBuilt) ∧
      (∀ c ∈ cs', c.st.built = true) ∧
      s'.weights.getD [] = s.weights.getD [] ++ collectedNewWeights children t := by
  intro h
  simp only [LayerList.build] at h
  split at h
  · simp at h
  · rename_i t hin
    split at h
    · simp at h
    · rename_i cs2 w2 t2 hgo
      simp only [Option.some.injEq, Prod.mk.injEq] at h
      obtain ⟨h1, h2⟩ := h
      subst h1
      subst h2
      obtain ⟨⟨cs0, hchain, hmap⟩, hbuilt, hweights⟩ :=
        buildGo_spec children t s.weights cs2 w2 t2 hgo
      exact ⟨t, hin, ⟨cs0, t2, hchain, hmap⟩, hbuilt, hweights⟩

theorem layerlist_build_chains_witness :
    ∃ t : Tensors Nat, selfW.input_tensors = some t ∧
      (∃ cs0 t', chainCalls [childW] t = some (cs0, t') ∧
        [childW'] = cs0.map PLayer.markBuilt) ∧
      (∀ c ∈ [childW'], c.st.built = true) ∧
      selfW'.weights.getD [] = selfW.weights.getD [] ++ collectedNewWeights [childW] t :=
  layerlist_build_chains selfW [childW] [childW'] selfW' rfl

mutual

theorem setMode_flags_all : ∀ (o : LObj) (b f : Bool),
    f ∈ (LObj.setModeForLayers o b).trainFlags → f = b
  | .plain t, b, f, hf => by
    simp only [LObj.setModeForLayers, LObj.trainFlags, List.mem_singleton] at hf
    exact hf
  | .llist t cs, b, f, hf => by
    simp only [LObj.setModeForLayers, LObj.trainFlags, List.mem_cons] at hf
    rcases hf with rfl | hf
    · rfl
    · exact setModeChildList_flags_all cs b f hf
  | .mlayer t ls, b, f, hf => by
    simp only [LObj.setModeForLayers, LObj.trainFlags, List.mem_cons] at hf
    rcases hf with rfl | hf
    · rfl
    · exact setModeModelList_flags_all ls b f hf

theorem setModeChildList_flags_all : ∀ (cs : List LObj) (b f : Bool),
    f ∈ trainFlagsList (setModeChildList cs b) → f = b
  | [], b, f, hf => by
    simp [setModeChildList, trainFlagsList] at hf
  | .mlayer t ls :: cs, b, f, hf => by
    simp only [setModeChildList, trainFlagsList, List.mem_append] at hf
    rcases hf with hf | hf
    · exact setMode_flags_all (.mlayer t ls) b f hf
    · exact setModeChildList_flags_all cs b f hf
  | .llist t cs2 :: cs, b, f, hf => by
    simp only [setModeChildList, trainFlagsList, List.mem_append] at hf
    rcases hf with hf | hf
    · exact setMode_flags_all (.llist t cs2) b f hf
    · exact setModeChildList_flags_all cs b f hf
  | .plain t :: cs, b, f, hf => by
    simp only [setModeChildList, trainFlagsList, LObj.trainFlags,
      List.singleton_append, List.mem_cons] at hf
    rcases hf with rfl | hf
    · rfl
    · exact setModeChildList_flags_all cs b f hf

theorem setModeModelList_flags_all : ∀ (ls : List LObj) (b f : Bool),
    f ∈ trainFlagsList (setModeModelLayerList ls b) → f = b
  | [], b, f, hf => by
    simp [setModeModelLayerList, trainFlagsList] at hf
  | l :: ls, b, f, hf => by
    simp only [setModeModelLayerList, trainFlagsList, List.mem_append] at hf
    rcases hf with hf | hf
    · exact setMode_flags_all l b f hf
    · exact setModeModelList_flags_all ls b f hf

end

/-- C8: after `LayerList._set_mode_for_layers(b)`, the `is_train` flag of the
`LayerList` itself and of every transitively nested layer equals `b`: direct
children are assigned, and nested `LayerList` / `ModelLayer` children are
recursed into, the `ModelLayer` delegating to its wrapped model. -/
theorem layerlist_set_mode_all_flags (t : Bool) (cs : List LObj) (b : Bool) :
    ((LObj.setModeForLayers (LObj.llist t cs) b).trainFlags).all (fun f => f == b) = true := by
  rw [List.all_eq_true]
  intro f hf
  simpa using setMode_flags_all (LObj.llist t cs) b f hf

/-- C6: starting from a global dict with no counter for the class, successive
constructions with `name=None` produce pairwise distinct auto-names: the
first gets the bare lowercased class name, the k-th subsequent one gets the
class name suffixed with an underscore and the counter value k, and the
per-class counter is k after the k-th subsequent construction, so it strictly
increases across constructions. -/
theorem layer_auto_naming_unique (d : GDict) (cname : String) (h : d cname = none) :
    autoNameAt d cname 0 = cname ∧
    (∀ k : Nat, autoNameAt d cname (k + 1) = cname ++ "_" ++ Nat.repr (k + 1)) ∧
    (∀ j k : Nat, j ≠ k → autoNameAt d cname j ≠ autoNameAt d cname k) ∧
    (∀ k : Nat, autoNameStateN d cname (k + 1) cname = some k) := by
  refine ⟨autoNameAt_zero d cname h, autoNameAt_succ d cname h, ?_,
    autoNameStateN_fresh d cname h⟩
  intro j k hjk
  match j, k with
  | 0, 0 => exact absurd rfl hjk
  | 0, k + 1 =>
    rw [autoNameAt_zero d cname h, autoNameAt_succ d cname h k]
    exact autoName_ne_base cname (k + 1)
  | j + 1, 0 =>
    rw [autoNameAt_zero d cname h, autoNameAt_succ d cname h j]
    exact (autoName_ne_base cname (j + 1)).symm
  | j + 1, k + 1 =>
    rw [autoNameAt_succ d cname h j, autoNameAt_succ d cname h k]
    intro he
    exact hjk (by rw [autoName_suffix_inj cname he])

theorem layer_auto_naming_unique_witness :
    autoNameAt dFresh "layer" 0 = "layer" ∧
    autoNameAt dFresh "layer" 1 ≠ autoNameAt dFresh "layer" 2 ∧
    autoNameStateN dFresh "layer" 3 "layer" = some 2 :=
  ⟨(layer_auto_naming_unique dFresh "layer" rfl).1,
   (layer_auto_naming_unique dFresh "layer" rfl).2.2.1 1 2 (by decide),
   (layer_auto_naming_unique dFresh "layer" rfl).2.2.2 2⟩
